import Mathlib

/-!
Verification development for the telemetry-logger pipeline.

The definitions below are a shallow embedding of the Python sources:
`backend/app/utils/packing.py` (binary codec), `backend/app/services/db_writer.py`
(batching writer), `backend/app/services/manager.py` (session coordinator),
`backend/app/services/websocket_bus.py` (broadcast bus),
`backend/app/services/gps_service.py` (NMEA parsing) and
`backend/app/services/meshtastic_service.py` (size reduction).

Modelling conventions:
* Python numbers are modelled as exact rationals (`ℚ`); the claims under
  consideration concern fixed-point scaling whose error margins are far larger
  than double-precision rounding, so the idealisation is faithful for them.
* Python `bytes` are `List ℕ` with entries below 256.
* Python dicts are association lists in insertion order; assignment to an
  existing key overwrites in place (`insertPair`), membership and lookup follow
  dict semantics.
* Fallible conversions (`float(...)`, `int(...)`, `struct.pack`) return
  `Option`; a caught exception corresponds to `none`.
-/

namespace Telemetry

/-- Truncation toward zero: the behaviour of Python `int()` applied to a
(real-valued) number, as used in `pack_telemetry_data`. -/
def truncTowardZero (q : ℚ) : ℤ := if 0 ≤ q then ⌊q⌋ else ⌈q⌉

/-- The field table built by `TelemetryPacker._create_field_mappings`:
field name ↦ (type id, field id, scale factor).  Scale factors are the exact
values of the Python float constants. -/
def fieldMappings : List (String × ℕ × ℕ × ℚ) :=
  [ ("latitude", 1, 1, 10000000)
  , ("longitude", 1, 2, 10000000)
  , ("altitude", 1, 3, 100)
  , ("speed_kph", 1, 4, 100)
  , ("heading_deg", 1, 5, 1)
  , ("satellites", 1, 6, 1)
  , ("hdop", 1, 7, 10)
  , ("SPEED", 2, 16, 100)
  , ("RPM", 2, 17, 1)
  , ("THROTTLE_POS", 2, 18, 1)
  , ("ENGINE_LOAD", 2, 19, 1)
  , ("COOLANT_TEMP", 2, 20, 10)
  , ("FUEL_LEVEL", 2, 21, 1)
  , ("INTAKE_TEMP", 2, 22, 10)
  , ("MAF", 2, 23, 10)
  , ("TIMING_ADVANCE", 2, 24, 10)
  , ("FUEL_PRESSURE", 2, 25, 10) ]

/-- `self.field_mappings[field_name]` as an optional lookup. -/
def lookupMapping (name : String) : Option (ℕ × ℕ × ℚ) :=
  (fieldMappings.find? (fun p => p.1 == name)).map Prod.snd

/-- The statically supported field names (`get_supported_fields`). -/
def supportedFieldNames : List String := fieldMappings.map Prod.fst

/-- Little-endian two's-complement encoding of a signed 32-bit value,
`struct.pack` with format `<i`. -/
def i32ToLEBytes (s : ℤ) : List ℕ :=
  let u : ℕ := (s % 4294967296).toNat
  [u % 256, u / 256 % 256, u / 65536 % 256, u / 16777216 % 256]

/-- Little-endian two's-complement decoding of a signed 32-bit value,
`struct.unpack` with format `<i`. -/
def leBytesToI32 (b0 b1 b2 b3 : ℕ) : ℤ :=
  let u : ℕ := b0 + 256 * b1 + 65536 * b2 + 16777216 * b3
  if u < 2147483648 then (u : ℤ) else (u : ℤ) - 4294967296

/-- One iteration of the packing loop in `pack_telemetry_data`: look the field
up, scale, truncate with `int()`, and emit the 6-byte record
`type(1) + field_id(1) + value(4)`.  A field whose scaled value does not fit a
signed 32-bit integer makes `struct.pack` raise `struct.error`, which the
source catches and skips (`none` here); an unsupported name is skipped too. -/
def packField (p : String × ℚ) : Option (List ℕ) :=
  match lookupMapping p.1 with
  | none => none
  | some (t, f, scale) =>
    let s := truncTowardZero (p.2 * scale)
    if -2147483648 ≤ s ∧ s < 2147483648 then some (t :: f :: i32ToLEBytes s) else none

/-- `TelemetryPacker.pack_telemetry_data`.  If no field packs, the function
returns the empty byte string; otherwise a `version(1) + count(1)` header is
prepended to the concatenated records.  The count byte is reduced mod 256: the
source would raise for more than 255 packed fields, which cannot happen for a
genuine dict (at most 17 supported keys). -/
def pack (data : List (String × ℚ)) : List ℕ :=
  let fields := data.filterMap packField
  if fields.isEmpty then [] else 1 :: fields.length % 256 :: fields.flatten

/-- `get_payload_size`: header plus six bytes per supported field name. -/
def getPayloadSize (data : List (String × ℚ)) : ℕ :=
  2 + 6 * (data.countP (fun p => (lookupMapping p.1).isSome))

/-- Reverse lookup used by `unpack_telemetry_data`: (type id, field id) ↦
(field name, scale factor).  All 17 pairs are distinct, so the first match
equals the Python reverse dict. -/
def reverseLookup (t f : ℕ) : Option (String × ℚ) :=
  (fieldMappings.find? (fun p => p.2.1 == t && p.2.2.1 == f)).map
    (fun p => (p.1, p.2.2.2))

/-- Python dict assignment `d[k] = v`: overwrite in place if the key exists,
otherwise append. -/
def insertPair (l : List (String × ℚ)) (k : String) (v : ℚ) : List (String × ℚ) :=
  if l.any (fun p => p.1 == k) then
    l.map (fun p => if p.1 == k then (k, v) else p)
  else l ++ [(k, v)]

/-- Python dict lookup `d[k]` (keys of a dict are unique, so first match). -/
def lookupVal (l : List (String × ℚ)) (k : String) : Option ℚ :=
  (l.find? (fun p => p.1 == k)).map Prod.snd

/-- The field loop of `unpack_telemetry_data`: up to `field_count` records are
read; the loop breaks as soon as fewer than six bytes remain
(`offset + 6 > len(data)`), and records whose (type, field) pair is unknown are
skipped. -/
def unpackGo : ℕ → List ℕ → List (String × ℚ) → List (String × ℚ)
  | 0, _, acc => acc
  | n + 1, t :: f :: b0 :: b1 :: b2 :: b3 :: rest, acc =>
    match reverseLookup t f with
    | some (name, scale) =>
      unpackGo n rest (insertPair acc name ((leBytesToI32 b0 b1 b2 b3 : ℚ) / scale))
    | none => unpackGo n rest acc
  | _ + 1, _, acc => acc

/-- `TelemetryPacker.unpack_telemetry_data`: inputs shorter than two bytes and
version bytes other than `0x01` give the empty dict; otherwise the field loop
runs.  The `struct.error` handler in the source is unreachable because of the
length guard, so the function is total. -/
def unpack (data : List ℕ) : List (String × ℚ) :=
  match data with
  | version :: count :: rest => if version = 1 then unpackGo count rest [] else []
  | _ => []

/-! ### DatabaseWriter (`backend/app/services/db_writer.py`) -/

/-- A queued signal (`TelemetryData`): the fields the claims inspect. -/
structure TelemetryDatum where
  sessionId : ℕ
  source : String
  channel : String
  valueNum : Option ℚ
deriving Repr, DecidableEq

/-- A queued frame entry as built by `queue_frame` (`data` stands in for the
frame payload dict, whose content the writer never inspects). -/
structure FrameEntry where
  sessionId : ℕ
  data : ℕ
deriving Repr, DecidableEq

/-- The mutable state of `DatabaseWriter` relevant to the claims. -/
structure WriterState where
  maxQueueSize : ℕ
  signalQueue : List TelemetryDatum
  frameQueue : List FrameEntry
  currentBatch : List TelemetryDatum
  signalsProcessed : ℕ
  batchesWritten : ℕ
  queueDrops : ℕ
deriving Repr, DecidableEq

/-- `asyncio.Queue.put_nowait` raises `QueueFull` exactly when the queue has a
positive capacity and holds at least that many items. -/
def queueIsFull (maxSize len : ℕ) : Bool := 0 < maxSize && maxSize ≤ len

/-- `DatabaseWriter.queue_signal`: non-blocking enqueue; a full queue bumps
`queue_drops` and reports `False`, otherwise the item is appended. -/
def queueSignal (st : WriterState) (d : TelemetryDatum) : Bool × WriterState :=
  if queueIsFull st.maxQueueSize st.signalQueue.length then
    (false, { st with queueDrops := st.queueDrops + 1 })
  else
    (true, { st with signalQueue := st.signalQueue ++ [d] })

/-- `DatabaseWriter.queue_frame`: wraps the payload into a frame entry and
enqueues it with the same backpressure policy as `queue_signal`. -/
def queueFrame (st : WriterState) (sid : ℕ) (payload : ℕ) : Bool × WriterState :=
  if queueIsFull st.maxQueueSize st.frameQueue.length then
    (false, { st with queueDrops := st.queueDrops + 1 })
  else
    (true, { st with frameQueue := st.frameQueue ++ [FrameEntry.mk sid payload] })

/-- `DatabaseWriter._flush_batch`.  `storageOk = false` means the storage call
(`_insert_signal_batch`) raises: the handler logs, clears the batch and leaves
both counters untouched.  On success the counters advance and the batch is
cleared. -/
def flushBatch (storageOk : Bool) (st : WriterState) : WriterState :=
  if st.currentBatch.isEmpty then st
  else if storageOk then
    { st with
      signalsProcessed := st.signalsProcessed + st.currentBatch.length
      batchesWritten := st.batchesWritten + 1
      currentBatch := [] }
  else
    { st with currentBatch := [] }

/-! ### ServiceManager (`backend/app/services/manager.py`) -/

/-- The coordinator state: the active-session set and the task-handle map
(session id ↦ names of the three recorded service tasks). -/
structure ManagerState where
  activeSessions : List ℕ
  serviceTasks : List (ℕ × List String)
deriving Repr, DecidableEq

def initManagerState : ManagerState := ⟨[], []⟩

def taskKeys (st : ManagerState) : List ℕ := st.serviceTasks.map Prod.fst

/-- The three task handles recorded by `start_session_services`. -/
def newSessionTasks : List String := ["gps_service", "obd_service", "meshtastic_service"]

/-- Python dict assignment for the task-handle map. -/
def upsertTasks (l : List (ℕ × List String)) (k : ℕ) (v : List String) :
    List (ℕ × List String) :=
  if l.any (fun p => p.1 == k) then
    l.map (fun p => if p.1 == k then (k, v) else p)
  else l ++ [(k, v)]

/-- `ServiceManager.start_session_services`, under the manager lock.  The
`registry` parameter is the external session table consulted through
`session_crud.get_by_id`. -/
def startSessionServices (registry : ℕ → Bool) (sid : ℕ) (st : ManagerState) :
    Bool × ManagerState :=
  if sid ∈ st.activeSessions then (false, st)
  else if !registry sid then (false, st)
  else
    (true,
      { activeSessions := sid :: st.activeSessions
        serviceTasks := upsertTasks st.serviceTasks sid newSessionTasks })

/-- `ServiceManager._cleanup_session_services`: cancels and deletes the task
handles of `sid` when present. -/
def cleanupSessionServices (sid : ℕ) (st : ManagerState) : ManagerState :=
  if (taskKeys st).contains sid then
    { st with serviceTasks := st.serviceTasks.filter (fun p => p.1 ≠ sid) }
  else st

/-- `ServiceManager.stop_session_services`. -/
def stopSessionServices (sid : ℕ) (st : ManagerState) : Bool × ManagerState :=
  if sid ∈ st.activeSessions then
    let st1 := cleanupSessionServices sid st
    (true, { st1 with activeSessions := st1.activeSessions.erase sid })
  else (false, st)

/-- `ServiceManager.shutdown`: cleans up every active session, then clears the
active set and the whole task map. -/
def shutdownManager (st : ManagerState) : ManagerState :=
  let st1 := st.activeSessions.foldl (fun s sid => cleanupSessionServices sid s) st
  { st1 with activeSessions := [], serviceTasks := [] }

/-- The coordinator operations whose completion C10 quantifies over. -/
inductive ManagerOp where
  | start : ℕ → ManagerOp
  | stop : ℕ → ManagerOp
  | shutdown : ManagerOp
deriving Repr, DecidableEq

def applyManagerOp (registry : ℕ → Bool) (st : ManagerState) : ManagerOp → ManagerState
  | ManagerOp.start sid => (startSessionServices registry sid st).2
  | ManagerOp.stop sid => (stopSessionServices sid st).2
  | ManagerOp.shutdown => shutdownManager st

def applyManagerOps (registry : ℕ → Bool) (ops : List ManagerOp) : ManagerState :=
  ops.foldl (applyManagerOp registry) initManagerState

/-! ### WebSocketBus (`backend/app/services/websocket_bus.py`) -/

/-- Bus state: session id ↦ subscriber set (connections as numeric handles),
plus whether the heartbeat task currently exists (`_heartbeat_task is not
None`). -/
structure BusState where
  connections : List (ℕ × List ℕ)
  heartbeatTask : Bool
deriving Repr, DecidableEq

def initBusState : BusState := ⟨[], false⟩

/-- `self._connections[session_id]` (empty when absent). -/
def sessionConns (l : List (ℕ × List ℕ)) (sid : ℕ) : List ℕ :=
  ((l.find? (fun p => p.1 == sid)).map Prod.snd).getD []

def hasSession (l : List (ℕ × List ℕ)) (sid : ℕ) : Bool :=
  l.any (fun p => p.1 == sid)

def setSessionConns (l : List (ℕ × List ℕ)) (sid : ℕ) (ws : List ℕ) :
    List (ℕ × List ℕ) :=
  l.map (fun p => if p.1 == sid then (sid, ws) else p)

def dropSession (l : List (ℕ × List ℕ)) (sid : ℕ) : List (ℕ × List ℕ) :=
  l.filter (fun p => p.1 ≠ sid)

/-- `WebSocketBus.connect`: ensure the session entry, add the socket to its
set, and start the heartbeat task when this is the session's first connection
and no task exists yet. -/
def busConnect (ws sid : ℕ) (st : BusState) : BusState :=
  let conns0 :=
    if hasSession st.connections sid then st.connections
    else st.connections ++ [(sid, [])]
  let cur := sessionConns conns0 sid
  let cur1 := if cur.contains ws then cur else cur ++ [ws]
  let conns1 := setSessionConns conns0 sid cur1
  { connections := conns1
    heartbeatTask :=
      if cur1.length = 1 && !st.heartbeatTask then true else st.heartbeatTask }

/-- `WebSocketBus.disconnect`: remove the socket, drop an emptied session
entry, and cancel the heartbeat task when no connections remain anywhere.  A
session id with no entry is a no-op. -/
def busDisconnect (ws sid : ℕ) (st : BusState) : BusState :=
  if hasSession st.connections sid then
    let removed := (sessionConns st.connections sid).erase ws
    let conns1 :=
      if removed.isEmpty then dropSession st.connections sid
      else setSessionConns st.connections sid removed
    { connections := conns1
      heartbeatTask := if conns1.isEmpty && st.heartbeatTask then false else st.heartbeatTask }
  else st

/-- `WebSocketBus.broadcast_to_session`, parameterised by the set of sockets
whose `send_text` raises.  Failed sockets are removed from the session set and
an emptied entry is dropped; the heartbeat task is left untouched. -/
def busBroadcast (sid : ℕ) (failed : List ℕ) (st : BusState) : BusState :=
  if hasSession st.connections sid then
    let conns := sessionConns st.connections sid
    if conns.isEmpty then st
    else
      let disconnected := conns.filter (fun ws => failed.contains ws)
      if disconnected.isEmpty then st
      else
        let remaining := conns.filter (fun ws => !failed.contains ws)
        let conns1 :=
          if remaining.isEmpty then dropSession st.connections sid
          else setSessionConns st.connections sid remaining
        { st with connections := conns1 }
  else st

/-- `WebSocketBus.shutdown`: cancel the heartbeat task, close every socket and
clear the subscriber map. -/
def busShutdown (_st : BusState) : BusState := ⟨[], false⟩

/-- The completed bus operations C8 quantifies over. -/
inductive BusOp where
  | connect : ℕ → ℕ → BusOp
  | disconnect : ℕ → ℕ → BusOp
  | broadcast : ℕ → List ℕ → BusOp
  | shutdown : BusOp
deriving Repr, DecidableEq

def applyBusOp (st : BusState) : BusOp → BusState
  | BusOp.connect ws sid => busConnect ws sid st
  | BusOp.disconnect ws sid => busDisconnect ws sid st
  | BusOp.broadcast sid failed => busBroadcast sid failed st
  | BusOp.shutdown => busShutdown st

def applyBusOps (ops : List BusOp) : BusState :=
  ops.foldl applyBusOp initBusState

/-! ### MeshtasticService size reduction
(`backend/app/services/meshtastic_service.py`) -/

/-- The fixed priority order of `_create_reduced_payload`: GPS position first,
then critical, secondary and tertiary OBD parameters. -/
def priorityFields : List String :=
  [ "latitude", "longitude", "altitude"
  , "SPEED", "RPM", "THROTTLE_POS"
  , "ENGINE_LOAD", "COOLANT_TEMP"
  , "FUEL_LEVEL", "INTAKE_TEMP" ]

/-- The accumulation loop of `_create_reduced_payload`: fields are added in
priority order; as soon as the re-encoded payload exceeds the limit the last
added field is removed and the loop breaks.  Inserting a key absent from
`reduced` (the priority list is duplicate-free) appends, matching the dict
assignment. -/
def reduceLoop (td : List (String × ℚ)) (maxSize : ℕ) :
    List String → List (String × ℚ) → List (String × ℚ)
  | [], reduced => reduced
  | f :: rest, reduced =>
    match lookupVal td f with
    | none => reduceLoop td maxSize rest reduced
    | some v =>
      let r2 := reduced ++ [(f, v)]
      if (pack r2).length ≤ maxSize then reduceLoop td maxSize rest r2 else reduced

/-- `MeshtasticService._create_reduced_payload`. -/
def createReducedPayload (td : List (String × ℚ)) (maxSize : ℕ) : List ℕ :=
  pack (reduceLoop td maxSize priorityFields [])

/-! ### GPS / NMEA parsing (`backend/app/services/gps_service.py`)

The three sentence patterns of `NMEAParser` all have the shape
`\$PFX,([^,]*),...,([^,]*)\*([0-9A-F]{2})`: a literal prefix, `n` comma-free
groups separated by commas, a literal star and two uppercase hex digits, with
trailing characters unconstrained (`re.match` anchors only the start).  The
first `n - 1` groups are forced to end at the next comma; the last group is
matched greedily, so the star split at the largest feasible position wins. -/

/-- A Python value appearing in a parsed-sentence dict. -/
inductive PyVal where
  | num : ℚ → PyVal
  | str : String → PyVal
deriving Repr, DecidableEq

/-- Python `str.strip()`: remove leading and trailing whitespace. -/
def pyStrip (s : String) : String :=
  String.mk (((s.toList.dropWhile Char.isWhitespace).reverse.dropWhile
    Char.isWhitespace).reverse)

/-- Python `str.startswith(pfx)`. -/
def strStartsWith (s pfx : String) : Bool :=
  pfx.toList.isPrefixOf s.toList

def digitsToNat (l : List Char) : ℕ :=
  l.foldl (fun a c => 10 * a + (c.toNat - 48)) 0

/-- Optional sign followed by a nonempty digit run, as accepted by Python
`int(str)` (underscore separators and surrounding whitespace not modelled). -/
def signedDigits? (cs : List Char) : Option ℤ :=
  match cs with
  | [] => none
  | c :: rest =>
    let p : ℤ × List Char :=
      if c = '-' then (-1, rest) else if c = '+' then (1, rest) else (1, c :: rest)
    if !p.2.isEmpty && p.2.all Char.isDigit then
      some (p.1 * digitsToNat p.2)
    else none

/-- Python `int(str)`; `none` models the `ValueError` the caller catches. -/
def pyInt? (s : String) : Option ℤ := signedDigits? s.toList

/-- Mantissa of a Python float literal: optional sign, digits with at most one
point, at least one digit overall. -/
def parseMantissa? (cs : List Char) : Option ℚ :=
  match cs with
  | [] => none
  | c :: rest =>
    let p : ℚ × List Char :=
      if c = '-' then (-1, rest) else if c = '+' then (1, rest) else (1, c :: rest)
    let ip := p.2.takeWhile Char.isDigit
    let rest2 := p.2.dropWhile Char.isDigit
    match rest2 with
    | [] => if ip.isEmpty then none else some (p.1 * digitsToNat ip)
    | '.' :: fp =>
      if fp.all Char.isDigit && !(ip.isEmpty && fp.isEmpty) then
        some (p.1 * (((digitsToNat ip * 10 ^ fp.length + digitsToNat fp : ℕ) : ℚ) / 10 ^ fp.length))
      else none
    | _ => none

/-- The index of the first exponent marker, if any. -/
def expMarkerIdx? (cs : List Char) : Option ℕ :=
  cs.findIdx? (fun c => c == 'e' || c == 'E')

/-- Python `float(str)` for decimal literals with an optional exponent
(`inf`/`nan`, underscore separators and surrounding whitespace not modelled);
`none` models the `ValueError` the caller catches. -/
def pyFloat? (s : String) : Option ℚ :=
  let cs := s.toList
  match expMarkerIdx? cs with
  | none => parseMantissa? cs
  | some i =>
    match parseMantissa? (cs.take i), signedDigits? (cs.drop (i + 1)) with
    | some q, some ex => some (q * (10 : ℚ) ^ ex)
    | _, _ => none

/-- `float(g) if g else 0.0`, as applied to most captured groups. -/
def floatOrZero? (s : String) : Option ℚ :=
  if s.toList.isEmpty then some 0 else pyFloat? s

/-- `float(g) if g and g != marker else 0.0`, as applied to the unit-bearing
groups (altitude, geoid height, DGPS age, VTG fields). -/
def floatOrZeroUnless? (marker : String) (s : String) : Option ℚ :=
  if s.toList.isEmpty || s == marker then some 0 else pyFloat? s

/-- `int(g) if g else 0`, as applied to quality and satellite counts. -/
def intOrZero? (s : String) : Option ℤ :=
  if s.toList.isEmpty then some 0 else pyInt? s

/-- `NMEAParser._ddm_to_dd`: degrees-decimal-minutes to signed decimal
degrees.  Python floor division and float modulo give
`degrees = ⌊ddm / 100⌋` and `minutes = ddm - 100 * ⌊ddm / 100⌋`. -/
def ddmToDd (ddm : ℚ) (dir : String) : ℚ :=
  let degrees : ℤ := ⌊ddm / 100⌋
  let minutes : ℚ := ddm - 100 * (⌊ddm / 100⌋ : ℚ)
  let dd := (degrees : ℚ) + minutes / 60
  if dir = "S" || dir = "W" then -dd else dd

/-- Splits `n` comma-terminated groups (`([^,]*),` each) off the front. -/
def splitCommaFields : ℕ → List Char → Option (List (List Char) × List Char)
  | 0, cs => some ([], cs)
  | n + 1, cs =>
    let fld := cs.takeWhile (fun c => c ≠ ',')
    match cs.dropWhile (fun c => c ≠ ',') with
    | ',' :: rest2 =>
      (splitCommaFields n rest2).map (fun pr => (fld :: pr.1, pr.2))
    | _ => none

def isUpperHexDigit (c : Char) : Bool :=
  decide (('0' ≤ c ∧ c ≤ '9') ∨ ('A' ≤ c ∧ c ≤ 'F'))

def hexVal (c : Char) : ℕ := if c.isDigit then c.toNat - 48 else c.toNat - 55

/-- Tries to realise `([^,]*)\*([0-9A-F]{2})` with the last group ending at
position `k`; characters after the checksum are unconstrained. -/
def starSplitAt? (cs : List Char) (k : ℕ) : Option (List Char × ℕ) :=
  match cs.drop k with
  | '*' :: h1 :: h2 :: _ =>
    if (cs.take k).all (fun c => c ≠ ',') && isUpperHexDigit h1 && isUpperHexDigit h2 then
      some (cs.take k, hexVal h1 * 16 + hexVal h2)
    else none
  | _ => none

/-- Greedy match of the last group and the checksum: the largest feasible
split position wins. -/
def lastGroupAndChecksum? (cs : List Char) : Option (List Char × ℕ) :=
  ((List.range (cs.length + 1)).reverse).findSome? (starSplitAt? cs)

/-- The common structural shape of the three sentence regexes: literal prefix
(comma included), `nFields` groups, `*HH`.  Returns the group texts and the
checksum value.  Matching is attempted on the stripped sentence, as in the
source. -/
def matchSentence (pfx : String) (nFields : ℕ) (s : String) :
    Option (List String × ℕ) :=
  let t := pyStrip s
  if strStartsWith t pfx then
    match splitCommaFields (nFields - 1) (t.toList.drop pfx.toList.length) with
    | some (fs, rest) =>
      match lastGroupAndChecksum? rest with
      | some (lastF, ck) => some ((fs ++ [lastF]).map (fun l => String.mk l), ck)
      | none => none
    | none => none
  else none

/-- `NMEAParser.parse_gga`.  Group 15 — the checksum — is captured but never
compared against anything; group 10 and group 14 are unused by the source. -/
def parseGGA (sentence : String) : Option (List (String × PyVal)) :=
  match matchSentence "$GPGGA," 14 sentence with
  | none => none
  | some (g, _ck) =>
    let gv := fun i => g.getD i ""
    match floatOrZero? (gv 1), floatOrZero? (gv 3), intOrZero? (gv 5),
        intOrZero? (gv 6), floatOrZero? (gv 7), floatOrZeroUnless? "M" (gv 8),
        floatOrZeroUnless? "M" (gv 10), floatOrZeroUnless? "M" (gv 11) with
    | some latRaw, some lonRaw, some quality, some satellites, some hdop,
        some altitude, some geoidHeight, some dgpsAge =>
      some
        [ ("sentence_type", PyVal.str "GGA")
        , ("time", PyVal.str (gv 0))
        , ("latitude", PyVal.num (ddmToDd latRaw (gv 2)))
        , ("longitude", PyVal.num (ddmToDd lonRaw (gv 4)))
        , ("quality", PyVal.num quality)
        , ("satellites", PyVal.num satellites)
        , ("hdop", PyVal.num hdop)
        , ("altitude", PyVal.num altitude)
        , ("geoid_height", PyVal.num geoidHeight)
        , ("dgps_age", PyVal.num dgpsAge)
        , ("dgps_id", PyVal.str (gv 12)) ]
    | _, _, _, _, _, _, _, _ => none

/-- `NMEAParser.parse_rmc` (knots are converted with the exact factor
1.852). -/
def parseRMC (sentence : String) : Option (List (String × PyVal)) :=
  match matchSentence "$GPRMC," 11 sentence with
  | none => none
  | some (g, _ck) =>
    let gv := fun i => g.getD i ""
    match floatOrZero? (gv 2), floatOrZero? (gv 4), floatOrZero? (gv 6),
        floatOrZero? (gv 7), floatOrZero? (gv 9) with
    | some latRaw, some lonRaw, some speedKnots, some course, some magVar =>
      some
        [ ("sentence_type", PyVal.str "RMC")
        , ("time", PyVal.str (gv 0))
        , ("status", PyVal.str (gv 1))
        , ("latitude", PyVal.num (ddmToDd latRaw (gv 3)))
        , ("longitude", PyVal.num (ddmToDd lonRaw (gv 5)))
        , ("speed_kph", PyVal.num (speedKnots * (1852 / 1000 : ℚ)))
        , ("course", PyVal.num course)
        , ("date", PyVal.str (gv 8))
        , ("magnetic_variation", PyVal.num magVar)
        , ("mag_var_dir", PyVal.str (gv 10)) ]
    | _, _, _, _, _ => none

/-- `NMEAParser.parse_vtg`. -/
def parseVTG (sentence : String) : Option (List (String × PyVal)) :=
  match matchSentence "$GPVTG," 8 sentence with
  | none => none
  | some (g, _ck) =>
    let gv := fun i => g.getD i ""
    match floatOrZeroUnless? "T" (gv 0), floatOrZeroUnless? "M" (gv 2),
        floatOrZeroUnless? "N" (gv 4), floatOrZeroUnless? "K" (gv 6) with
    | some courseTrue, some courseMagnetic, some speedKnots, some speedKph =>
      some
        [ ("sentence_type", PyVal.str "VTG")
        , ("course_true", PyVal.num courseTrue)
        , ("course_magnetic", PyVal.num courseMagnetic)
        , ("speed_knots", PyVal.num speedKnots)
        , ("speed_kph", PyVal.num speedKph) ]
    | _, _, _, _ => none

/-- The dispatch at the top of `GPSService._process_nmea_sentence`. -/
def parseDispatch (sentence : String) : Option (List (String × PyVal)) :=
  if strStartsWith sentence "$GPGGA" then parseGGA sentence
  else if strStartsWith sentence "$GPRMC" then parseRMC sentence
  else if strStartsWith sentence "$GPVTG" then parseVTG sentence
  else none

/-- GPS service state relevant to the claims. -/
structure GpsState where
  sessionId : Option ℕ
  sentencesReceived : ℕ
  sentencesParsed : ℕ
deriving Repr, DecidableEq

/-- An emitted sample: channel, numeric value, text value (the triple that
`_handle_parsed_data` hands to `queue_signal` and the broadcast). -/
def emittedSamples (sid : Option ℕ) (d : List (String × PyVal)) :
    List (String × Option ℚ × Option String) :=
  match sid with
  | none => []
  | some s =>
    -- `if not self.session_id: return` — both `None` and `0` are falsy
    if s = 0 then []
    else
      (d.filter (fun p => p.1 ≠ "sentence_type")).map (fun p =>
        match p.2 with
        | PyVal.num q => (p.1, some q, none)
        | PyVal.str t => (p.1, none, some t))

/-- `GPSService._process_nmea_sentence`: the received counter always
increments; a successful parse increments the parsed counter and emits one
sample per dict entry other than `sentence_type`. -/
def processNmeaSentence (st : GpsState) (sentence : String) :
    GpsState × List (String × Option ℚ × Option String) :=
  let st1 := { st with sentencesReceived := st.sentencesReceived + 1 }
  match parseDispatch sentence with
  | some d =>
    ({ st1 with sentencesParsed := st1.sentencesParsed + 1 }, emittedSamples st.sessionId d)
  | none => (st1, [])

/-- The NMEA checksum over a sentence body (the characters strictly between
the leading `$` and the `*`): byte-wise XOR.  The source never computes it;
it is needed to state claim C6. -/
def nmeaChecksum (body : List Char) : ℕ :=
  body.foldl (fun a c => Nat.xor a (c.toNat % 256)) 0

/-! ### Claim-statement apparatus -/

/-- The number of fields actually included by `pack_telemetry_data`:
supported names whose scaled value fits a signed 32-bit integer. -/
def includedCount (data : List (String × ℚ)) : ℕ :=
  data.countP (fun p => (packField p).isSome)

/-- The documented per-field ranges, read off `TelemetryPacker.validate_data`. -/
def docRanges : List (String × ℚ × ℚ) :=
  [ ("latitude", -180, 180)
  , ("longitude", -180, 180)
  , ("altitude", -1000, 50000)
  , ("speed_kph", 0, 500)
  , ("SPEED", 0, 500)
  , ("RPM", 0, 10000)
  , ("THROTTLE_POS", 0, 100)
  , ("ENGINE_LOAD", 0, 100)
  , ("FUEL_LEVEL", 0, 100)
  , ("COOLANT_TEMP", -50, 200)
  , ("INTAKE_TEMP", -50, 200) ]

def docRange? (name : String) : Option (ℚ × ℚ) :=
  (docRanges.find? (fun p => p.1 == name)).map Prod.snd

/-- The value a field decodes to after a round trip: the scaled truncation
divided back by the scale factor. -/
def decodedValue (k : String) (v : ℚ) : ℚ :=
  match lookupMapping k with
  | some (_, _, sc) => ((truncTowardZero (v * sc) : ℤ) : ℚ) / sc
  | none => 0

/-! ## Theorems -/

/-- C3: starting a session that is already active or absent from the session
registry returns `false` and leaves the active-session set and the task-handle
map unchanged; and a second consecutive start of the same id always returns
`false`. -/
theorem start_session_noop (registry : ℕ → Bool) (sid : ℕ) (st : ManagerState) :
    (sid ∈ st.activeSessions ∨ registry sid = false →
      startSessionServices registry sid st = (false, st)) ∧
    (startSessionServices registry sid (startSessionServices registry sid st).2).1 = false := by
  constructor
  · intro h
    rcases h with h | h
    · simp [startSessionServices, h]
    · by_cases hmem : sid ∈ st.activeSessions
      · simp [startSessionServices, hmem]
      · simp [startSessionServices, hmem, h]
  · by_cases hmem : sid ∈ st.activeSessions
    · simp [startSessionServices, hmem]
    · by_cases hreg : registry sid
      · simp [startSessionServices, hmem, hreg]
      · simp [startSessionServices, hmem, hreg]

theorem start_session_noop_witness :
    ((3 : ℕ) ∈ (ManagerState.mk [3] [(3, newSessionTasks)]).activeSessions ∨
        (fun _ => true) 3 = false) ∧
    startSessionServices (fun _ => true) 3 (ManagerState.mk [3] [(3, newSessionTasks)]) =
      (false, ManagerState.mk [3] [(3, newSessionTasks)]) :=
  ⟨Or.inl (by decide),
    (start_session_noop (fun _ => true) 3 (ManagerState.mk [3] [(3, newSessionTasks)])).1
      (Or.inl (by decide))⟩

/-- C4: enqueueing a signal or a frame on a full bounded queue returns
`false`, bumps the drop counter by exactly one and leaves both queues
untouched; on a non-full queue the item is appended, `true` is returned and
the drop counter is unchanged. -/
theorem queue_backpressure (st : WriterState) (d : TelemetryDatum) (sid payload : ℕ) :
    (queueIsFull st.maxQueueSize st.signalQueue.length = true →
      queueSignal st d = (false, { st with queueDrops := st.queueDrops + 1 })) ∧
    (queueIsFull st.maxQueueSize st.signalQueue.length = false →
      queueSignal st d = (true, { st with signalQueue := st.signalQueue ++ [d] })) ∧
    (queueIsFull st.maxQueueSize st.frameQueue.length = true →
      queueFrame st sid payload = (false, { st with queueDrops := st.queueDrops + 1 })) ∧
    (queueIsFull st.maxQueueSize st.frameQueue.length = false →
      queueFrame st sid payload =
        (true, { st with frameQueue := st.frameQueue ++ [FrameEntry.mk sid payload] })) := by
  refine ⟨fun h => ?_, fun h => ?_, fun h => ?_, fun h => ?_⟩ <;>
    simp [queueSignal, queueFrame, h]

theorem queue_backpressure_witness :
    (queueIsFull (WriterState.mk 1 [TelemetryDatum.mk 1 "gps" "latitude" (some 1)] [] [] 0 0 0).maxQueueSize
        (WriterState.mk 1 [TelemetryDatum.mk 1 "gps" "latitude" (some 1)] [] [] 0 0 0).signalQueue.length = true) ∧
    queueSignal (WriterState.mk 1 [TelemetryDatum.mk 1 "gps" "latitude" (some 1)] [] [] 0 0 0)
        (TelemetryDatum.mk 1 "gps" "longitude" (some 2)) =
      (false, WriterState.mk 1 [TelemetryDatum.mk 1 "gps" "latitude" (some 1)] [] [] 0 0 1) :=
  ⟨by decide,
    (queue_backpressure (WriterState.mk 1 [TelemetryDatum.mk 1 "gps" "latitude" (some 1)] [] [] 0 0 0)
        (TelemetryDatum.mk 1 "gps" "longitude" (some 2)) 0 0).1 (by decide)⟩

/-- C5: flushing a non-empty batch on a storage failure discards the whole
batch and leaves both counters unchanged (the exception is swallowed); a
successful flush empties the batch, advances the processed counter by the
batch length and the batch counter by one. -/
theorem flush_failure_policy (st : WriterState) (h : st.currentBatch ≠ []) :
    flushBatch false st = { st with currentBatch := [] } ∧
    flushBatch true st =
      { st with
        currentBatch := []
        signalsProcessed := st.signalsProcessed + st.currentBatch.length
        batchesWritten := st.batchesWritten + 1 } := by
  have hne : st.currentBatch.isEmpty = false := by
    simpa [List.isEmpty_iff] using h
  constructor <;> simp [flushBatch, hne]

theorem flush_failure_policy_witness :
    (WriterState.mk 10 [] [] [TelemetryDatum.mk 1 "gps" "latitude" (some 1)] 5 2 0).currentBatch ≠ [] ∧
    flushBatch false (WriterState.mk 10 [] [] [TelemetryDatum.mk 1 "gps" "latitude" (some 1)] 5 2 0) =
      WriterState.mk 10 [] [] [] 5 2 0 ∧
    flushBatch true (WriterState.mk 10 [] [] [TelemetryDatum.mk 1 "gps" "latitude" (some 1)] 5 2 0) =
      WriterState.mk 10 [] [] [] 6 3 0 :=
  ⟨by decide,
    (flush_failure_policy (WriterState.mk 10 [] [] [TelemetryDatum.mk 1 "gps" "latitude" (some 1)] 5 2 0)
      (by decide)).1,
    (flush_failure_policy (WriterState.mk 10 [] [] [TelemetryDatum.mk 1 "gps" "latitude" (some 1)] 5 2 0)
      (by decide)).2⟩

lemma upsertTasks_of_not_mem (l : List (ℕ × List String)) (k : ℕ) (v : List String)
    (h : k ∉ l.map Prod.fst) : upsertTasks l k v = l ++ [(k, v)] := by
  have hany : l.any (fun p => p.1 == k) = false := by
    simp only [List.any_eq_false]
    intro p hp
    simp only [beq_iff_eq]
    intro heq
    exact h (heq ▸ List.mem_map_of_mem Prod.fst hp)
  simp [upsertTasks, hany]

lemma mem_map_fst_filter_ne {α β : Type} [DecidableEq α] (l : List (α × β)) (a k : α) :
    a ∈ (l.filter (fun p => p.1 ≠ k)).map Prod.fst ↔ a ∈ l.map Prod.fst ∧ a ≠ k := by
  simp only [List.mem_map, List.mem_filter, decide_eq_true_eq]
  constructor
  · rintro ⟨b, ⟨hb, hne⟩, rfl⟩
    exact ⟨⟨b, hb, rfl⟩, hne⟩
  · rintro ⟨⟨b, hb, rfl⟩, hne⟩
    exact ⟨b, ⟨hb, hne⟩, rfl⟩

lemma manager_step_inv (registry : ℕ → Bool) (st : ManagerState) (op : ManagerOp)
    (hnd : st.activeSessions.Nodup)
    (hiff : ∀ x, x ∈ st.activeSessions ↔ x ∈ taskKeys st) :
    (applyManagerOp registry st op).activeSessions.Nodup ∧
    ∀ x, x ∈ (applyManagerOp registry st op).activeSessions ↔
      x ∈ taskKeys (applyManagerOp registry st op) := by
  cases op with
  | start sid =>
    by_cases h1 : sid ∈ st.activeSessions
    · simpa [applyManagerOp, startSessionServices, h1] using ⟨hnd, hiff⟩
    · by_cases h2 : registry sid
      · have hkeys : sid ∉ st.serviceTasks.map Prod.fst := fun hk => h1 ((hiff sid).2 hk)
        have hupsert := upsertTasks_of_not_mem st.serviceTasks sid newSessionTasks hkeys
        have happly : applyManagerOp registry st (ManagerOp.start sid) =
            ManagerState.mk (sid :: st.activeSessions)
              (st.serviceTasks ++ [(sid, newSessionTasks)]) := by
          simp [applyManagerOp, startSessionServices, h1, h2, hupsert]
        rw [happly]
        refine ⟨by simp [hnd, h1], fun x => ?_⟩
        simp only [taskKeys] at hiff ⊢
        simp only [List.mem_cons, List.map_append, List.mem_append, List.map_cons,
          List.map_nil, hiff x]
        simp
        tauto
      · simpa [applyManagerOp, startSessionServices, h1, h2] using ⟨hnd, hiff⟩
  | stop sid =>
    by_cases h1 : sid ∈ st.activeSessions
    · have hk : sid ∈ taskKeys st := (hiff sid).1 h1
      have hcontains : (taskKeys st).contains sid = true := List.elem_eq_true_of_mem hk
      have hclean : cleanupSessionServices sid st =
          ManagerState.mk st.activeSessions
            (st.serviceTasks.filter (fun p => p.1 ≠ sid)) := by
        simp only [cleanupSessionServices, hcontains]
        simp [hk]
      have happly : applyManagerOp registry st (ManagerOp.stop sid) =
          ManagerState.mk (st.activeSessions.erase sid)
            (st.serviceTasks.filter (fun p => p.1 ≠ sid)) := by
        simp [applyManagerOp, stopSessionServices, h1, hclean]
      rw [happly]
      refine ⟨hnd.erase sid, fun x => ?_⟩
      have herase : x ∈ st.activeSessions.erase sid ↔ x ≠ sid ∧ x ∈ st.activeSessions :=
        hnd.mem_erase_iff
      simp only [taskKeys] at hiff ⊢
      rw [herase, mem_map_fst_filter_ne, hiff x]
      tauto
    · simpa [applyManagerOp, stopSessionServices, h1] using ⟨hnd, hiff⟩
  | shutdown =>
    simp [applyManagerOp, shutdownManager, taskKeys]

/-- C10: after every completed coordinator operation sequence, a session id is
in the active-session set exactly when it is a key of the task-handle map. -/
theorem manager_bookkeeping_invariant (registry : ℕ → Bool) (ops : List ManagerOp) :
    ∀ sid, sid ∈ (applyManagerOps registry ops).activeSessions ↔
      sid ∈ taskKeys (applyManagerOps registry ops) := by
  suffices h : ∀ (st : ManagerState), st.activeSessions.Nodup →
      (∀ x, x ∈ st.activeSessions ↔ x ∈ taskKeys st) →
      (ops.foldl (applyManagerOp registry) st).activeSessions.Nodup ∧
      ∀ x, x ∈ (ops.foldl (applyManagerOp registry) st).activeSessions ↔
        x ∈ taskKeys (ops.foldl (applyManagerOp registry) st) by
    exact (h initManagerState (by simp [initManagerState]) (by simp [initManagerState, taskKeys])).2
  induction ops with
  | nil => intro st hnd hiff; exact ⟨hnd, hiff⟩
  | cons op rest ih =>
    intro st hnd hiff
    have hstep := manager_step_inv registry st op hnd hiff
    exact ih (applyManagerOp registry st op) hstep.1 hstep.2

/-- C8 counterexample: after connecting one subscriber to session 1 and then
broadcasting to session 1 with that subscriber's send failing — a completed
bus operation — no subscriber remains registered anywhere, yet the heartbeat
task still exists.  This refutes the claimed "if and only if" invariant. -/
theorem heartbeat_iff_counterexample :
    (applyBusOps [BusOp.connect 0 1, BusOp.broadcast 1 [0]]).connections = [] ∧
    (applyBusOps [BusOp.connect 0 1, BusOp.broadcast 1 [0]]).heartbeatTask = true := by
  decide

lemma bus_step_inv (st : BusState) (op : BusOp)
    (ih : st.connections ≠ [] → st.heartbeatTask = true) :
    (applyBusOp st op).connections ≠ [] → (applyBusOp st op).heartbeatTask = true := by
  cases op with
  | connect ws sid =>
    intro _
    cases hhb : st.heartbeatTask with
    | true => simp [applyBusOp, busConnect, hhb]
    | false =>
      have hconn : st.connections = [] := by
        by_contra hne
        exact absurd (ih hne) (by simp [hhb])
      simp [applyBusOp, busConnect, hconn, hasSession, sessionConns, setSessionConns, hhb]
  | disconnect ws sid =>
    intro hne
    by_cases hs : hasSession st.connections sid
    · have hold : st.connections ≠ [] := by
        intro h0
        rw [h0] at hs
        simp [hasSession] at hs
      have hhb := ih hold
      simp only [applyBusOp, busDisconnect, hs, if_true] at hne ⊢
      set conns1 :=
        if ((sessionConns st.connections sid).erase ws).isEmpty then
          dropSession st.connections sid
        else setSessionConns st.connections sid ((sessionConns st.connections sid).erase ws) with hc
      have : conns1.isEmpty = false := by
        rw [List.isEmpty_eq_false]
        simpa using hne
      simp [this, hhb]
    · simp only [applyBusOp, busDisconnect, hs, if_false] at hne ⊢
      simp [hs]
      exact ih hne
  | broadcast sid failed =>
    intro hne
    by_cases hs : hasSession st.connections sid
    · have hold : st.connections ≠ [] := by
        intro h0
        rw [h0] at hs
        simp [hasSession] at hs
      simp only [applyBusOp, busBroadcast, hs, if_true]
      split <;> try exact ih hold
      split <;> exact ih hold
    · simp only [applyBusOp, busBroadcast, hs, if_false] at hne ⊢
      simp [hs]
      exact ih hne
  | shutdown =>
    intro hne
    simp [applyBusOp, busShutdown] at hne

/-- C8 amended: after every completed bus operation sequence, the heartbeat
task exists whenever at least one subscriber is registered (it is started on
the first subscriber anywhere); an unsubscribe of a registered session that
leaves no subscriber anywhere stops the task, and shutdown always stops it —
but, per the counterexample, a publish whose send failures remove the last
subscriber leaves the task running, so the converse direction fails. -/
theorem heartbeat_liveness_amended (ops : List BusOp) (ws sid : ℕ) (st : BusState) :
    ((applyBusOps ops).connections ≠ [] → (applyBusOps ops).heartbeatTask = true) ∧
    (hasSession st.connections sid = true →
      (busDisconnect ws sid st).connections = [] →
      (busDisconnect ws sid st).heartbeatTask = false) ∧
    ((busShutdown st).connections = [] ∧ (busShutdown st).heartbeatTask = false) := by
  refine ⟨?_, ?_, by simp [busShutdown]⟩
  · have hfold : ∀ (sts : BusState), (sts.connections ≠ [] → sts.heartbeatTask = true) →
        ((ops.foldl applyBusOp sts).connections ≠ [] →
          (ops.foldl applyBusOp sts).heartbeatTask = true) := by
      induction ops with
      | nil => intro sts h; exact h
      | cons op rest ihop =>
        intro sts h
        exact ihop (applyBusOp sts op) (bus_step_inv sts op h)
    exact hfold initBusState (by simp [initBusState])
  · intro hs hempty
    simp only [busDisconnect, hs, if_true] at hempty ⊢
    rcases hb : st.heartbeatTask with _ | _ <;>
      simp_all

theorem heartbeat_liveness_amended_witness :
    (applyBusOps [BusOp.connect 0 1]).heartbeatTask = true ∧
    (busDisconnect 0 1 (BusState.mk [(1, [0])] true)).heartbeatTask = false :=
  ⟨(heartbeat_liveness_amended [BusOp.connect 0 1] 0 1 (BusState.mk [(1, [0])] true)).1
      (by decide),
    (heartbeat_liveness_amended [BusOp.connect 0 1] 0 1 (BusState.mk [(1, [0])] true)).2.1
      (by decide) (by decide)⟩

lemma lookupMapping_latitude : lookupMapping "latitude" = some (1, 1, (10000000 : ℚ)) := rfl

lemma lookupMapping_longitude : lookupMapping "longitude" = some (1, 2, (10000000 : ℚ)) := rfl

lemma lookupMapping_altitude : lookupMapping "altitude" = some (1, 3, (100 : ℚ)) := rfl

lemma lookupMapping_speed : lookupMapping "SPEED" = some (2, 16, (100 : ℚ)) := rfl

lemma lookupMapping_rpm : lookupMapping "RPM" = some (2, 17, (1 : ℚ)) := rfl

lemma reverseLookup_lat : reverseLookup 1 1 = some ("latitude", (10000000 : ℚ)) := rfl

lemma reduceLoop_fits (td : List (String × ℚ)) (maxSize : ℕ) :
    ∀ (fields : List String) (reduced : List (String × ℚ)),
      (pack reduced).length ≤ maxSize →
      (pack (reduceLoop td maxSize fields reduced)).length ≤ maxSize := by
  intro fields
  induction fields with
  | nil => intro reduced h; exact h
  | cons f rest ih =>
    intro reduced h
    simp only [reduceLoop]
    cases hv : lookupVal td f with
    | none => exact ih reduced h
    | some v =>
      by_cases hfits : (pack (reduced ++ [(f, v)])).length ≤ maxSize
      · simpa [hfits] using ih (reduced ++ [(f, v)]) hfits
      · simpa [hfits] using h

lemma reduceLoop_prefix (td : List (String × ℚ)) (maxSize : ℕ) :
    ∀ (fields : List String) (reduced : List (String × ℚ)),
      ∃ k, (reduceLoop td maxSize fields reduced).map Prod.fst =
        reduced.map Prod.fst ++
          (fields.filter (fun f => (lookupVal td f).isSome)).take k := by
  intro fields
  induction fields with
  | nil => intro reduced; exact ⟨0, by simp [reduceLoop]⟩
  | cons f rest ih =>
    intro reduced
    simp only [reduceLoop]
    cases hv : lookupVal td f with
    | none =>
      rcases ih reduced with ⟨k, hk⟩
      exact ⟨k, by simp [List.filter, hv, hk]⟩
    | some v =>
      by_cases hfits : (pack (reduced ++ [(f, v)])).length ≤ maxSize
      · rcases ih (reduced ++ [(f, v)]) with ⟨k, hk⟩
        refine ⟨k + 1, ?_⟩
        simp only [hfits, if_true, hk]
        simp [List.filter, hv]
      · exact ⟨0, by simp [hfits]⟩

/-- C7: whenever the full encoding exceeds the transmit budget, the reduced
payload produced by `_create_reduced_payload` (a) fits the budget and (b)
retains exactly a prefix, in the fixed priority order, of the priority fields
present in the input map. -/
theorem size_reduction_fits_and_priority (td : List (String × ℚ)) (maxSize : ℕ)
    (hbig : maxSize < (pack td).length) :
    (createReducedPayload td maxSize).length ≤ maxSize ∧
    ∃ k, (reduceLoop td maxSize priorityFields []).map Prod.fst =
      (priorityFields.filter (fun f => (lookupVal td f).isSome)).take k := by
  refine ⟨?_, ?_⟩
  · have h0 : (pack ([] : List (String × ℚ))).length ≤ maxSize := by
      simp [pack]
    exact reduceLoop_fits td maxSize priorityFields [] h0
  · simpa using reduceLoop_prefix td maxSize priorityFields []

theorem size_reduction_witness :
    (createReducedPayload
        [("latitude", 1), ("longitude", 2), ("altitude", 3), ("SPEED", 4), ("RPM", 5)]
        20).length ≤ 20 ∧
    ∃ k, (reduceLoop
        [("latitude", 1), ("longitude", 2), ("altitude", 3), ("SPEED", 4), ("RPM", 5)]
        20 priorityFields []).map Prod.fst =
      (priorityFields.filter (fun f =>
        (lookupVal [("latitude", 1), ("longitude", 2), ("altitude", 3), ("SPEED", 4), ("RPM", 5)]
          f).isSome)).take k :=
  size_reduction_fits_and_priority
    [("latitude", 1), ("longitude", 2), ("altitude", 3), ("SPEED", 4), ("RPM", 5)] 20
    (by norm_num [pack, packField, lookupMapping_latitude, lookupMapping_longitude,
      lookupMapping_altitude, lookupMapping_speed, lookupMapping_rpm, truncTowardZero,
      i32ToLEBytes, List.filterMap_cons])

lemma floor_le_trunc (q : ℚ) : ⌊q⌋ ≤ truncTowardZero q := by
  unfold truncTowardZero
  split
  · exact le_refl _
  · exact Int.floor_le_ceil q

lemma trunc_le_ceil (q : ℚ) : truncTowardZero q ≤ ⌈q⌉ := by
  unfold truncTowardZero
  split
  · exact Int.floor_le_ceil q
  · exact le_refl _

lemma trunc_fits (q : ℚ) (h1 : -(2147483648 : ℚ) ≤ q) (h2 : q ≤ 2147483647) :
    -2147483648 ≤ truncTowardZero q ∧ truncTowardZero q < 2147483648 := by
  constructor
  · have hf : (⌊(-2147483648 : ℚ)⌋ : ℤ) ≤ ⌊q⌋ := Int.floor_le_floor h1
    have h3 : (⌊(-2147483648 : ℚ)⌋ : ℤ) = -2147483648 := by norm_num
    have := floor_le_trunc q
    omega
  · have hc : (⌈q⌉ : ℤ) ≤ ⌈(2147483647 : ℚ)⌉ := Int.ceil_le_ceil h2
    have h3 : (⌈(2147483647 : ℚ)⌉ : ℤ) = 2147483647 := by norm_num
    have := trunc_le_ceil q
    omega

lemma trunc_err (q : ℚ) : |(truncTowardZero q : ℚ) - q| < 1 := by
  unfold truncTowardZero
  rw [abs_sub_lt_iff]
  split
  · have h1 := Int.floor_le q
    have h2 := Int.sub_one_lt_floor q
    constructor <;> linarith
  · have h1 := Int.le_ceil q
    have h2 := Int.ceil_lt_add_one q
    constructor <;> linarith

lemma le_roundtrip (s : ℤ) (h1 : -2147483648 ≤ s) (h2 : s < 2147483648) :
    leBytesToI32 ((s % 4294967296).toNat % 256) ((s % 4294967296).toNat / 256 % 256)
      ((s % 4294967296).toNat / 65536 % 256) ((s % 4294967296).toNat / 16777216 % 256) = s := by
  simp only [leBytesToI32]
  split <;> omega

lemma packField_length (p : String × ℚ) (l : List ℕ) (h : packField p = some l) :
    l.length = 6 := by
  unfold packField at h
  cases hm : lookupMapping p.1 with
  | none => simp [hm] at h
  | some m =>
    obtain ⟨t, f, sc⟩ := m
    rw [hm] at h
    by_cases hfit : -2147483648 ≤ truncTowardZero (p.2 * sc) ∧
        truncTowardZero (p.2 * sc) < 2147483648
    · simp only [hfit, and_self, if_true] at h
      cases h
      simp [i32ToLEBytes]
    · simp [hfit] at h

lemma filterMap_packField_length (data : List (String × ℚ)) :
    (data.filterMap packField).length = includedCount data := by
  unfold includedCount
  induction data with
  | nil => simp
  | cons p rest ih =>
    cases hp : packField p with
    | none => simp [List.filterMap_cons, hp, ih, List.countP_cons]
    | some l => simp [List.filterMap_cons, hp, ih, List.countP_cons]

lemma flatten_length_of_records (l : List (List ℕ)) (h : ∀ x ∈ l, x.length = 6) :
    l.flatten.length = 6 * l.length := by
  induction l with
  | nil => simp
  | cons x rest ih =>
    simp only [List.flatten_cons, List.length_append, List.length_cons]
    rw [h x (List.mem_cons_self x rest), ih (fun y hy => h y (List.mem_cons_of_mem x hy))]
    ring

lemma lookupMapping_mem (k : String) (m : ℕ × ℕ × ℚ) (h : lookupMapping k = some m) :
    (k, m) ∈ fieldMappings := by
  unfold lookupMapping at h
  cases hf : fieldMappings.find? (fun p => p.1 == k) with
  | none => rw [hf] at h; exact absurd h (by simp)
  | some p =>
    rw [hf] at h
    have hmem := List.mem_of_find?_eq_some hf
    have hp := List.find?_some hf
    simp only [beq_iff_eq] at hp
    simp at h
    have : (k, m) = p := by
      obtain ⟨p1, p2⟩ := p
      simp only [Prod.mk.injEq]
      exact ⟨hp.symm, h.symm⟩
    rw [this]
    exact hmem

lemma lookupMapping_isSome_mem_supported (k : String) (m : ℕ × ℕ × ℚ)
    (h : lookupMapping k = some m) : k ∈ supportedFieldNames :=
  List.mem_map_of_mem Prod.fst (lookupMapping_mem k m h)

lemma includedCount_le_supported (data : List (String × ℚ))
    (hnd : (data.map Prod.fst).Nodup) : includedCount data ≤ 17 := by
  have hcount : includedCount data =
      ((data.filter (fun p => (packField p).isSome)).map Prod.fst).length := by
    unfold includedCount
    rw [List.length_map, List.countP_eq_length_filter]
  rw [hcount]
  have hsub : (data.filter (fun p => (packField p).isSome)).map Prod.fst ⊆
      supportedFieldNames := by
    intro k hk
    simp only [List.mem_map, List.mem_filter] at hk
    obtain ⟨p, ⟨hp, hsome⟩, rfl⟩ := hk
    rw [Option.isSome_iff_exists] at hsome
    obtain ⟨l, hl⟩ := hsome
    unfold packField at hl
    cases hm : lookupMapping p.1 with
    | none => rw [hm] at hl; exact absurd hl (by simp)
    | some m => exact lookupMapping_isSome_mem_supported p.1 m hm
  have hnd2 : ((data.filter (fun p => (packField p).isSome)).map Prod.fst).Nodup :=
    hnd.sublist (List.Sublist.map Prod.fst (List.filter_sublist data))
  have := (List.subperm_of_subset hnd2 hsub).length_le
  simpa [supportedFieldNames, fieldMappings] using this

/-- C2 counterexample: the empty map has zero included fields, yet the encoder
returns the empty byte string — length 0, not the claimed 2. -/
theorem payload_size_counterexample :
    includedCount [] = 0 ∧ pack ([] : List (String × ℚ)) = [] ∧
    (pack ([] : List (String × ℚ))).length ≠ 2 + 6 * includedCount [] := by
  refine ⟨rfl, rfl, ?_⟩
  decide

/-- C2 amended: for every input map (distinct keys), the encoder output is
empty when no field is included, and otherwise consists of a version byte, a
field-count byte equal to the number `n` of included fields, and `n` six-byte
records, for a total length of exactly `2 + 6 * n`.  Unsupported names are
skipped, not an error. -/
theorem payload_size_amended (data : List (String × ℚ))
    (hnd : (data.map Prod.fst).Nodup) :
    (includedCount data = 0 → pack data = []) ∧
    (1 ≤ includedCount data →
      pack data = 1 :: includedCount data :: (data.filterMap packField).flatten ∧
      (pack data).length = 2 + 6 * includedCount data) := by
  have hlen := filterMap_packField_length data
  constructor
  · intro h0
    have : (data.filterMap packField).length = 0 := by rw [hlen, h0]
    have hnil : data.filterMap packField = [] := List.length_eq_zero.1 this
    simp [pack, hnil]
  · intro hpos
    have hne : (data.filterMap packField).isEmpty = false := by
      rw [List.isEmpty_eq_false]
      intro hnil
      rw [hnil] at hlen
      simp at hlen
      omega
    have hlt : includedCount data < 256 := by
      have := includedCount_le_supported data hnd
      omega
    have hmod : (data.filterMap packField).length % 256 = includedCount data := by
      rw [hlen]
      exact Nat.mod_eq_of_lt hlt
    have hflat : (data.filterMap packField).flatten.length =
        6 * includedCount data := by
      rw [flatten_length_of_records _ (fun x hx => ?_), hlen]
      obtain ⟨p, _, hp⟩ := List.mem_filterMap.1 hx
      exact packField_length p x hp
    constructor
    · simp [pack, hne, hmod]
    · simp [pack, hne, hmod, hflat]
      omega

theorem payload_size_amended_witness :
    pack [("latitude", 1)] =
      1 :: includedCount [("latitude", 1)] ::
        ([("latitude", (1 : ℚ))].filterMap packField).flatten ∧
    (pack [("latitude", 1)]).length = 2 + 6 * includedCount [("latitude", 1)] :=
  (payload_size_amended [("latitude", 1)] (by decide)).2
    (by norm_num [includedCount, packField, lookupMapping_latitude, truncTowardZero,
      List.countP_cons])

lemma reverseLookup_mem_supported (t f : ℕ) (nm : String) (sc : ℚ)
    (h : reverseLookup t f = some (nm, sc)) : nm ∈ supportedFieldNames := by
  unfold reverseLookup at h
  cases hf : fieldMappings.find? (fun p => p.2.1 == t && p.2.2.1 == f) with
  | none => rw [hf] at h; exact absurd h (by simp)
  | some p =>
    rw [hf] at h
    have hmem := List.mem_of_find?_eq_some hf
    simp at h
    rw [← h.1]
    exact List.mem_map_of_mem Prod.fst hmem

lemma insertPair_keys_subset (l : List (String × ℚ)) (k : String) (v : ℚ) :
    ∀ x ∈ (insertPair l k v).map Prod.fst, x ∈ l.map Prod.fst ∨ x = k := by
  intro x hx
  unfold insertPair at hx
  split at hx
  · simp only [List.map_map, List.mem_map] at hx
    obtain ⟨p, hp, hpx⟩ := hx
    simp only [Function.comp] at hpx
    by_cases hpk : (p.1 == k) = true
    · right
      rw [← hpx]
      simp [hpk]
    · left
      rw [← hpx]
      simp only [hpk]
      simp only [Bool.false_eq_true, if_false]
      exact List.mem_map_of_mem Prod.fst hp
  · simp only [List.map_append, List.mem_append] at hx
    rcases hx with hx | hx
    · exact Or.inl hx
    · simp at hx
      exact Or.inr hx

lemma insertPair_length_le (l : List (String × ℚ)) (k : String) (v : ℚ) :
    (insertPair l k v).length ≤ l.length + 1 := by
  unfold insertPair
  split <;> simp

lemma unpackGo_keys_supported (n : ℕ) : ∀ (bytes : List ℕ) (acc : List (String × ℚ)),
    (∀ x ∈ acc.map Prod.fst, x ∈ supportedFieldNames) →
    ∀ x ∈ (unpackGo n bytes acc).map Prod.fst, x ∈ supportedFieldNames := by
  induction n with
  | zero => intro bytes acc hacc; simpa [unpackGo] using hacc
  | succ n ih =>
    intro bytes acc hacc
    rcases bytes with _ | ⟨t, _ | ⟨f, _ | ⟨b0, _ | ⟨b1, _ | ⟨b2, _ | ⟨b3, rest⟩⟩⟩⟩⟩⟩
    · simpa [unpackGo] using hacc
    · simpa [unpackGo] using hacc
    · simpa [unpackGo] using hacc
    · simpa [unpackGo] using hacc
    · simpa [unpackGo] using hacc
    · simpa [unpackGo] using hacc
    · cases hrl : reverseLookup t f with
      | none => simpa [unpackGo, hrl] using ih rest acc hacc
      | some q =>
        obtain ⟨nm, sc⟩ := q
        have hstep : unpackGo (n + 1) (t :: f :: b0 :: b1 :: b2 :: b3 :: rest) acc =
            unpackGo n rest
              (insertPair acc nm ((leBytesToI32 b0 b1 b2 b3 : ℚ) / sc)) := by
          simp [unpackGo, hrl]
        rw [hstep]
        refine ih rest _ (fun x hx => ?_)
        rcases insertPair_keys_subset acc nm _ x hx with hx2 | hx2
        · exact hacc x hx2
        · rw [hx2]
          exact reverseLookup_mem_supported t f nm sc hrl

lemma unpackGo_length_le (n : ℕ) : ∀ (bytes : List ℕ) (acc : List (String × ℚ)),
    (unpackGo n bytes acc).length ≤ acc.length + min n (bytes.length / 6) := by
  induction n with
  | zero => intro bytes acc; simp [unpackGo]
  | succ n ih =>
    intro bytes acc
    rcases bytes with _ | ⟨t, _ | ⟨f, _ | ⟨b0, _ | ⟨b1, _ | ⟨b2, _ | ⟨b3, rest⟩⟩⟩⟩⟩⟩
    · simp [unpackGo]
    · simp [unpackGo]
    · simp [unpackGo]
    · simp [unpackGo]
    · simp [unpackGo]
    · simp [unpackGo]
    · have hdiv : (t :: f :: b0 :: b1 :: b2 :: b3 :: rest).length / 6 =
          1 + rest.length / 6 := by
        simp only [List.length_cons]
        omega
      cases hrl : reverseLookup t f with
      | none =>
        have := ih rest acc
        simp only [unpackGo, hrl]
        rw [hdiv]
        omega
      | some q =>
        obtain ⟨nm, sc⟩ := q
        have hstep : unpackGo (n + 1) (t :: f :: b0 :: b1 :: b2 :: b3 :: rest) acc =
            unpackGo n rest
              (insertPair acc nm ((leBytesToI32 b0 b1 b2 b3 : ℚ) / sc)) := by
          simp [unpackGo, hrl]
        rw [hstep, hdiv]
        have h1 := ih rest (insertPair acc nm ((leBytesToI32 b0 b1 b2 b3 : ℚ) / sc))
        have h2 := insertPair_length_le acc nm ((leBytesToI32 b0 b1 b2 b3 : ℚ) / sc)
        omega

/-- C9: decoding is total and safe on arbitrary byte strings: every key of the
result is a statically supported field name; inputs shorter than two bytes or
with a version byte other than 0x01 decode to the empty map; and the decoded
field count never exceeds either the stated count byte or the number of whole
6-byte records actually present in the buffer. -/
theorem decode_totality (data : List ℕ) :
    (∀ k ∈ (unpack data).map Prod.fst, k ∈ supportedFieldNames) ∧
    (unpack data).length ≤ (data.length - 2) / 6 ∧
    (data.length < 2 → unpack data = []) ∧
    (∀ v c rest, data = v :: c :: rest → v ≠ 1 → unpack data = []) ∧
    (∀ c rest, data = 1 :: c :: rest →
      (unpack data).length ≤ min c (rest.length / 6)) := by
  refine ⟨?_, ?_, ?_, ?_, ?_⟩
  · intro k hk
    match data with
    | [] => simp [unpack] at hk
    | [v] => simp [unpack] at hk
    | v :: c :: rest =>
      by_cases hv : v = 1
      · subst hv
        have : unpack (1 :: c :: rest) = unpackGo c rest [] := by simp [unpack]
        rw [this] at hk
        exact unpackGo_keys_supported c rest [] (by simp) k hk
      · simp [unpack, hv] at hk
  · match data with
    | [] => simp [unpack]
    | [v] => simp [unpack]
    | v :: c :: rest =>
      by_cases hv : v = 1
      · subst hv
        have h1 : unpack (1 :: c :: rest) = unpackGo c rest [] := by simp [unpack]
        have h2 := unpackGo_length_le c rest []
        have h3 : (1 :: c :: rest).length - 2 = rest.length := by simp
        rw [h1, h3]
        simp only [List.length_nil, Nat.zero_add] at h2
        omega
      · simp [unpack, hv]
  · intro hshort
    match data with
    | [] => simp [unpack]
    | [v] => simp [unpack]
    | v :: c :: rest => exact absurd hshort (by simp)
  · intro v c rest hdata hv
    subst hdata
    simp [unpack, hv]
  · intro c rest hdata
    subst hdata
    have h1 : unpack (1 :: c :: rest) = unpackGo c rest [] := by simp [unpack]
    have h2 := unpackGo_length_le c rest []
    rw [h1]
    simp only [List.length_nil, Nat.zero_add] at h2
    omega

theorem decode_totality_witness :
    unpack [5] = [] ∧ unpack [2, 1, 0, 0, 0, 0, 0, 0] = [] ∧
    (unpack [1, 9, 1, 1, 0, 0, 0, 0, 7]).length ≤ min 9 ((7 : ℕ) / 6) :=
  ⟨(decode_totality [5]).2.2.1 (by decide),
    (decode_totality [2, 1, 0, 0, 0, 0, 0, 0]).2.2.2.1 2 1 [0, 0, 0, 0, 0, 0] rfl (by decide),
    by
      have h := (decode_totality [1, 9, 1, 1, 0, 0, 0, 0, 7]).2.2.2.2 9
        [1, 1, 0, 0, 0, 0, 7] rfl
      simpa using h⟩

lemma reverseLookup_correct :
    ∀ p ∈ fieldMappings, reverseLookup p.2.1 p.2.2.1 = some (p.1, p.2.2.2) := by
  decide

lemma mapping_scale_pos : ∀ p ∈ fieldMappings, (0 : ℚ) < p.2.2.2 := by decide

lemma docRanges_fit : ∀ e ∈ docRanges, ∃ t f sc, lookupMapping e.1 = some (t, f, sc) ∧
    (0 : ℚ) < sc ∧ -(2147483648 : ℚ) ≤ e.2.1 * sc ∧ e.2.2 * sc ≤ 2147483647 := by
  intro e he
  fin_cases he <;>
    exact ⟨_, _, _, rfl, by norm_num, by norm_num, by norm_num⟩

lemma docRange_mem (k : String) (r : ℚ × ℚ) (h : docRange? k = some r) :
    (k, r) ∈ docRanges := by
  unfold docRange? at h
  cases hf : docRanges.find? (fun p => p.1 == k) with
  | none => rw [hf] at h; exact absurd h (by simp)
  | some p =>
    rw [hf] at h
    have hmem := List.mem_of_find?_eq_some hf
    have hp := List.find?_some hf
    simp only [beq_iff_eq] at hp
    simp at h
    have : (k, r) = p := by
      obtain ⟨p1, p2⟩ := p
      simp only [Prod.mk.injEq]
      exact ⟨hp.symm, h.symm⟩
    rw [this]
    exact hmem

lemma packField_of_bounds (k : String) (v lo hi sc : ℚ) (t f : ℕ)
    (hm : lookupMapping k = some (t, f, sc)) (hsc : 0 < sc)
    (hlo : lo ≤ v) (hhi : v ≤ hi)
    (hlo2 : -(2147483648 : ℚ) ≤ lo * sc) (hhi2 : hi * sc ≤ 2147483647) :
    packField (k, v) = some (t :: f :: i32ToLEBytes (truncTowardZero (v * sc))) ∧
    -2147483648 ≤ truncTowardZero (v * sc) ∧ truncTowardZero (v * sc) < 2147483648 := by
  have hq1 : -(2147483648 : ℚ) ≤ v * sc :=
    le_trans hlo2 (mul_le_mul_of_nonneg_right hlo (le_of_lt hsc))
  have hq2 : v * sc ≤ 2147483647 :=
    le_trans (mul_le_mul_of_nonneg_right hhi (le_of_lt hsc)) hhi2
  have hfits := trunc_fits (v * sc) hq1 hq2
  refine ⟨?_, hfits.1, hfits.2⟩
  simp [packField, hm, hfits.1, hfits.2]

lemma docRange_pack (k : String) (r : ℚ × ℚ) (v : ℚ) (h : docRange? k = some r)
    (hlo : r.1 ≤ v) (hhi : v ≤ r.2) :
    ∃ t f sc, lookupMapping k = some (t, f, sc) ∧ 0 < sc ∧
      packField (k, v) = some (t :: f :: i32ToLEBytes (truncTowardZero (v * sc))) ∧
      -2147483648 ≤ truncTowardZero (v * sc) ∧ truncTowardZero (v * sc) < 2147483648 := by
  obtain ⟨t, f, sc, hm, hsc, hb1, hb2⟩ := docRanges_fit (k, r) (docRange_mem k r h)
  obtain ⟨hpf, hfit1, hfit2⟩ :=
    packField_of_bounds k v r.1 r.2 sc t f hm hsc hlo hhi hb1 hb2
  exact ⟨t, f, sc, hm, hsc, hpf, hfit1, hfit2⟩

lemma filterMap_length_of_all_isSome {α β : Type} (f : α → Option β) :
    ∀ (l : List α), (∀ x ∈ l, (f x).isSome) → (l.filterMap f).length = l.length := by
  intro l
  induction l with
  | nil => simp
  | cons x rest ih =>
    intro h
    have hx := h x (List.mem_cons_self x rest)
    rw [Option.isSome_iff_exists] at hx
    obtain ⟨y, hy⟩ := hx
    simp [List.filterMap_cons, hy, ih (fun z hz => h z (List.mem_cons_of_mem x hz))]

lemma unpackGo_pack_entries :
    ∀ (entries acc : List (String × ℚ)),
      (∀ p ∈ entries, ∃ r, docRange? p.1 = some r ∧ r.1 ≤ p.2 ∧ p.2 ≤ r.2) →
      unpackGo (entries.filterMap packField).length
          (entries.filterMap packField).flatten acc
        = entries.foldl (fun a p => insertPair a p.1 (decodedValue p.1 p.2)) acc := by
  intro entries
  induction entries with
  | nil => intro acc _; simp [unpackGo]
  | cons p rest ih =>
    intro acc h
    obtain ⟨r, hr, hlo, hhi⟩ := h p (List.mem_cons_self p rest)
    obtain ⟨t, f, sc, hm, hsc, hpf, hfit1, hfit2⟩ := docRange_pack p.1 r p.2 hr hlo hhi
    have hpf2 : packField p =
        some (t :: f :: i32ToLEBytes (truncTowardZero (p.2 * sc))) := hpf
    have hrev : reverseLookup t f = some (p.1, sc) := by
      have := reverseLookup_correct (p.1, t, f, sc) (lookupMapping_mem p.1 (t, f, sc) hm)
      simpa using this
    have hfm : (p :: rest).filterMap packField =
        (t :: f :: i32ToLEBytes (truncTowardZero (p.2 * sc))) :: rest.filterMap packField := by
      simp [List.filterMap_cons, hpf2]
    rw [hfm]
    simp only [List.length_cons, List.flatten_cons, i32ToLEBytes, List.cons_append,
      List.nil_append]
    simp only [unpackGo, hrev]
    rw [le_roundtrip (truncTowardZero (p.2 * sc)) hfit1 hfit2]
    have hdec : decodedValue p.1 p.2 = ((truncTowardZero (p.2 * sc) : ℤ) : ℚ) / sc := by
      simp [decodedValue, hm]
    rw [List.foldl_cons, ← hdec]
    exact ih (insertPair acc p.1 (decodedValue p.1 p.2))
      (fun q hq => h q (List.mem_cons_of_mem p hq))

lemma foldl_insertPair_eq_append (g : String × ℚ → ℚ) :
    ∀ (entries acc : List (String × ℚ)),
      (∀ p ∈ entries, ∀ q ∈ acc, q.1 ≠ p.1) →
      (entries.map Prod.fst).Nodup →
      entries.foldl (fun a p => insertPair a p.1 (g p)) acc
        = acc ++ entries.map (fun p => (p.1, g p)) := by
  intro entries
  induction entries with
  | nil => intro acc _ _; simp
  | cons p rest ih =>
    intro acc hdisj hnd
    simp only [List.map_cons] at hnd
    have hnd2 := List.nodup_cons.1 hnd
    have hany : acc.any (fun q => q.1 == p.1) = false := by
      simp only [List.any_eq_false]
      intro q hq
      simp only [beq_iff_eq]
      exact hdisj p (List.mem_cons_self p rest) q hq
    have hins : insertPair acc p.1 (g p) = acc ++ [(p.1, g p)] := by
      simp [insertPair, hany]
    simp only [List.foldl_cons, hins]
    rw [ih (acc ++ [(p.1, g p)]) ?_ hnd2.2]
    · simp
    · intro p2 hp2 q hq
      rcases List.mem_append.1 hq with hq | hq
      · exact hdisj p2 (List.mem_cons_of_mem p hp2) q hq
      · simp only [List.mem_singleton] at hq
        rw [hq]
        intro heq
        exact hnd2.1 (heq ▸ List.mem_map_of_mem Prod.fst hp2)

lemma lookupVal_map_of_nodup (g : String × ℚ → ℚ) :
    ∀ (entries : List (String × ℚ)), (entries.map Prod.fst).Nodup →
      ∀ p ∈ entries, lookupVal (entries.map (fun q => (q.1, g q))) p.1 = some (g p) := by
  intro entries
  induction entries with
  | nil => intro _ p hp; simp at hp
  | cons q rest ih =>
    intro hnd p hp
    simp only [List.map_cons] at hnd ⊢
    have hnd2 := List.nodup_cons.1 hnd
    rcases List.mem_cons.1 hp with rfl | hp2
    · unfold lookupVal
      rw [List.find?_cons_of_pos _ (by simp)]
      rfl
    · have hne : q.1 ≠ p.1 := by
        intro heq
        exact hnd2.1 (heq ▸ List.mem_map_of_mem Prod.fst hp2)
      unfold lookupVal
      rw [List.find?_cons_of_neg _ (by simp [hne])]
      exact ih hnd2.2 p hp2

lemma length_le_of_ranged (data : List (String × ℚ))
    (hnd : (data.map Prod.fst).Nodup)
    (hrange : ∀ p ∈ data, (docRange? p.1).isSome) : data.length ≤ 11 := by
  have hsub : data.map Prod.fst ⊆ docRanges.map Prod.fst := by
    intro k hk
    obtain ⟨p, hp, rfl⟩ := List.mem_map.1 hk
    have := hrange p hp
    rw [Option.isSome_iff_exists] at this
    obtain ⟨r, hr⟩ := this
    exact List.mem_map_of_mem Prod.fst (docRange_mem p.1 r hr)
  have := (List.subperm_of_subset hnd hsub).length_le
  simpa [docRanges] using this

/-- C1 counterexample: latitude `1.9e-7` is a supported field inside its
documented range, yet the decoded value is `1e-7`, an error of `0.9e-7` —
at least `0.5 / scale_factor`.  The encoder truncates (`int()`), it does not
round, so the claimed bound fails. -/
theorem roundtrip_counterexample :
    docRange? "latitude" = some (-180, 180) ∧
    (-180 : ℚ) ≤ 19 / 100000000 ∧ (19 / 100000000 : ℚ) ≤ 180 ∧
    unpack (pack [("latitude", 19 / 100000000)]) = [("latitude", 1 / 10000000)] ∧
    ¬ (|(1 / 10000000 : ℚ) - 19 / 100000000| < 1 / 2 / 10000000) := by
  refine ⟨rfl, by norm_num, by norm_num, ?_, ?_⟩
  · norm_num [pack, packField, lookupMapping_latitude, truncTowardZero, i32ToLEBytes,
      List.filterMap_cons]
    norm_num [unpack, unpackGo, reverseLookup_lat, leBytesToI32, insertPair]
  · have habs : |(1 / 10000000 : ℚ) - 19 / 100000000| = 9 / 100000000 := by
      rw [show (1 / 10000000 : ℚ) - 19 / 100000000 = -(9 / 100000000) by norm_num,
        abs_neg, abs_of_pos (by norm_num)]
    rw [habs]
    norm_num

/-- C1 amended: for every map with distinct supported keys whose values lie in
the documented ranges, decoding the encoded payload recovers every key, and
each decoded value differs from the original by strictly less than
`1 / scale_factor` (the encoder stores the i32 truncation `int(value *
scale_factor)`, so the error bound is `1 / scale_factor`, not `0.5 /
scale_factor`). -/
theorem roundtrip_amended (data : List (String × ℚ))
    (hnd : (data.map Prod.fst).Nodup)
    (hrange : ∀ p ∈ data, ∃ r, docRange? p.1 = some r ∧ r.1 ≤ p.2 ∧ p.2 ≤ r.2) :
    ∀ p ∈ data, ∃ t f sc v2, lookupMapping p.1 = some (t, f, sc) ∧
      lookupVal (unpack (pack data)) p.1 = some v2 ∧ |v2 - p.2| < 1 / sc := by
  intro p hp
  obtain ⟨r, hr, hlo, hhi⟩ := hrange p hp
  obtain ⟨t, f, sc, hm, hsc, hpf, hfit1, hfit2⟩ := docRange_pack p.1 r p.2 hr hlo hhi
  have hall : ∀ q ∈ data, (packField q).isSome := by
    intro q hq
    obtain ⟨r2, hr2, h1, h2⟩ := hrange q hq
    obtain ⟨t2, f2, sc2, _, _, hpf2, _, _⟩ := docRange_pack q.1 r2 q.2 hr2 h1 h2
    have hq2 : packField q =
        some (t2 :: f2 :: i32ToLEBytes (truncTowardZero (q.2 * sc2))) := hpf2
    simp [hq2]
  have hlen : (data.filterMap packField).length = data.length :=
    filterMap_length_of_all_isSome packField data hall
  have hlen11 : data.length ≤ 11 :=
    length_le_of_ranged data hnd (fun q hq => by
      obtain ⟨r2, hr2, _, _⟩ := hrange q hq
      simp [hr2])
  have hne : (data.filterMap packField).isEmpty = false := by
    rw [List.isEmpty_eq_false]
    intro h0
    rw [h0] at hlen
    simp only [List.length_nil] at hlen
    exact absurd hp (by simp [List.length_eq_zero.1 hlen.symm])
  have hpack : pack data = 1 :: data.length :: (data.filterMap packField).flatten := by
    simp only [pack, hne, Bool.false_eq_true, if_false]
    rw [hlen, Nat.mod_eq_of_lt (by omega)]
  have hunp : unpack (pack data) =
      data.foldl (fun a q => insertPair a q.1 (decodedValue q.1 q.2)) [] := by
    rw [hpack]
    have hu : unpack (1 :: data.length :: (data.filterMap packField).flatten) =
        unpackGo data.length (data.filterMap packField).flatten [] := by
      simp [unpack]
    rw [hu, ← hlen]
    exact unpackGo_pack_entries data [] hrange
  have hmap : data.foldl (fun a q => insertPair a q.1 (decodedValue q.1 q.2)) [] =
      data.map (fun q => (q.1, decodedValue q.1 q.2)) := by
    have := foldl_insertPair_eq_append (fun q => decodedValue q.1 q.2) data []
      (by simp) hnd
    simpa using this
  refine ⟨t, f, sc, decodedValue p.1 p.2, hm, ?_, ?_⟩
  · rw [hunp, hmap]
    exact lookupVal_map_of_nodup (fun q => decodedValue q.1 q.2) data hnd p hp
  · have hdec : decodedValue p.1 p.2 = ((truncTowardZero (p.2 * sc) : ℤ) : ℚ) / sc := by
      simp [decodedValue, hm]
    rw [hdec]
    have herr := trunc_err (p.2 * sc)
    have heq : ((truncTowardZero (p.2 * sc) : ℤ) : ℚ) / sc - p.2 =
        (((truncTowardZero (p.2 * sc) : ℤ) : ℚ) - p.2 * sc) / sc := by
      field_simp
      ring
    rw [heq, abs_div, abs_of_pos hsc]
    exact (div_lt_div_iff_of_pos_right hsc).2 herr

theorem roundtrip_amended_witness :
    ∃ t f sc v2, lookupMapping "latitude" = some (t, f, sc) ∧
      lookupVal (unpack (pack [("latitude", (1 : ℚ))])) "latitude" = some v2 ∧
      |v2 - 1| < 1 / sc :=
  roundtrip_amended [("latitude", 1)] (by decide)
    (fun p hp => by
      simp only [List.mem_singleton] at hp
      rw [hp]
      exact ⟨(-180, 180), rfl, by norm_num, by norm_num⟩)
    ("latitude", 1) (by simp)

/-- C6 counterexample: a GGA sentence whose trailing checksum field `*00` does
not match the checksum 0x47 computed over the sentence body is nevertheless
parsed: the parsed counter increments alongside the received counter and ten
samples are emitted.  The parser validates only the structural presence of a
two-hex-digit checksum field, never its value. -/
theorem nmea_checksum_counterexample :
    nmeaChecksum
        (("$GPGGA,123519,4807.038,N,01131.000,E,1,08,0.9,545.4,M,46.9,M,,*00".toList.drop
          1).takeWhile (fun c => c ≠ '*')) = 71 ∧
    (matchSentence "$GPGGA," 14
        "$GPGGA,123519,4807.038,N,01131.000,E,1,08,0.9,545.4,M,46.9,M,,*00").map
      Prod.snd = some 0 ∧
    (0 : ℕ) ≠ 71 ∧
    (processNmeaSentence (GpsState.mk (some 1) 5 3)
        "$GPGGA,123519,4807.038,N,01131.000,E,1,08,0.9,545.4,M,46.9,M,,*00").1 =
      GpsState.mk (some 1) 6 4 ∧
    ((processNmeaSentence (GpsState.mk (some 1) 5 3)
        "$GPGGA,123519,4807.038,N,01131.000,E,1,08,0.9,545.4,M,46.9,M,,*00").2).length
      = 10 := by
  refine ⟨by decide, by decide, by decide, by decide, by decide⟩

/-- C6 amended: the received counter increments for every processed line, and
every line that fails the structural pattern match (no recognised prefix, too
few comma-separated groups, or no trailing star followed by two uppercase hex
digits) emits no sample and leaves the parsed counter unchanged, without
raising.  The checksum value itself is never verified, so a structurally
well-formed line with a mismatched checksum is parsed and does emit samples
(see the counterexample). -/
theorem nmea_discard_amended (st : GpsState) (sentence : String) :
    (processNmeaSentence st sentence).1.sentencesReceived =
      st.sentencesReceived + 1 ∧
    (parseDispatch sentence = none →
      processNmeaSentence st sentence =
        ({ st with sentencesReceived := st.sentencesReceived + 1 }, []) ∧
      (processNmeaSentence st sentence).1.sentencesParsed = st.sentencesParsed) := by
  constructor
  · unfold processNmeaSentence
    cases parseDispatch sentence <;> simp
  · intro h
    constructor <;> simp [processNmeaSentence, h]

theorem nmea_discard_amended_witness :
    processNmeaSentence (GpsState.mk (some 1) 5 3) "$GPGGA,invalid,data*47" =
      (GpsState.mk (some 1) 6 3, []) ∧
    (processNmeaSentence (GpsState.mk (some 1) 5 3)
        "$GPGGA,invalid,data*47").1.sentencesParsed = 3 :=
  (nmea_discard_amended (GpsState.mk (some 1) 5 3) "$GPGGA,invalid,data*47").2
    (by decide)

end Telemetry
